import Mathlib

/-!
# APER encoder (hampi `codecs/src/aper/encode/mod.rs`): shallow embedding

The encode side of the APER codec is embedded as Lean functions.  The bit
buffer `AperCodecData` holds an ordered list of bits (MSB-first per octet);
every encoder takes the buffer and returns the resulting buffer paired with
an `Except AperCodecError Unit`, mirroring the Rust signature
`fn(&mut AperCodecData, ...) -> Result<(), AperCodecError>` (the pair's first
component is the buffer state after the call, also on the error paths).

The functions of `encode/mod.rs` are translated statement by statement.  The
bit-buffer primitives (`encode_bool`, `append_bits`, `align`) and the
whole-number / length-determinant internals (`encode_internal.rs`) are not
part of the visible source; they are modelled from the spec, each marked
`Modelled from the spec:` in its doc comment.
-/

set_option autoImplicit false

/-- The codec error: a single diagnostic-message-carrying value
(`AperCodecError` in `codecs/src/aper/mod.rs`, as described by spec §2/§7:
"a single error type carrying a diagnostic message"). -/
structure AperCodecError where
  msg : String
deriving Repr, DecidableEq

/-- Constructor `AperCodecError::new`. -/
def AperCodecError.new (s : String) : AperCodecError := ⟨s⟩

/-- The encode-side bit buffer (`AperCodecData`): an ordered, growable
sequence of bits, append-only during encoding (spec §3 "Bit Buffer"). -/
structure AperCodecData where
  bits : List Bool
deriving Repr, DecidableEq

/-- Modelled from the spec: §4.1 `append_bits(slice)` of the bit buffer,
which is not under the visible source — "appends the given bit sequence
verbatim, in order; no side effects beyond buffer growth". -/
def AperCodecData.append_bits (d : AperCodecData) (bs : List Bool) : AperCodecData :=
  ⟨d.bits ++ bs⟩

/-- Modelled from the spec: §4.1 `encode_bool(v)` of the bit buffer —
"appends exactly one bit, `1` for true". -/
def AperCodecData.encode_bool (d : AperCodecData) (b : Bool) : AperCodecData :=
  ⟨d.bits ++ [b]⟩

/-- Modelled from the spec: §4.1 `align()` of the bit buffer — "pads the
buffer with zero bits up to the next octet boundary. No-op if already
aligned". -/
def AperCodecData.align (d : AperCodecData) : AperCodecData :=
  ⟨d.bits ++ List.replicate ((8 - d.bits.length % 8) % 8) false⟩

/-- Result of one encode call: the buffer afterwards and the Rust
`Result<(), AperCodecError>`. -/
abbrev EncodeResult := AperCodecData × Except AperCodecError Unit

/-- Returns `true` exactly on the Rust `Ok(())` side of a result. -/
def isOk (r : Except AperCodecError Unit) : Bool :=
  match r with
  | .ok _ => true
  | .error _ => false

/-- The diagnostic message of an error result (`""` on success);
used to state theorems without deciding equality of `Except` values. -/
def errMsg (r : Except AperCodecError Unit) : String :=
  match r with
  | .ok _ => ""
  | .error e => e.msg

/-- The `w` low-order bits of `v`, most significant first (the bit-field /
big-endian octet view used throughout APER). -/
def natToBits (w v : Nat) : List Bool :=
  (List.range w).map (fun i => v.testBit (w - 1 - i))

/-- One octet rendered as its 8 bits, MSB first (bitvec's `Msb0` view). -/
def byteToBits (b : Nat) : List Bool := natToBits 8 b

/-- A byte sequence viewed as bits, MSB-first per octet
(bitvec's `view_bits::<Msb0>()`). -/
def bytesToBits : List Nat → List Bool
  | [] => []
  | b :: rest => byteToBits b ++ bytesToBits rest

/-- Number of bits needed to write any value of `0..=n`:
`⌈log₂(n+1)⌉` (spec §4.2). -/
def bitWidth (n : Nat) : Nat :=
  if n = 0 then 0 else n.log2 + 1

/-- Minimal octet count representing the unsigned value `n`
(at least one octet). -/
def minOctets (n : Nat) : Nat :=
  if n = 0 then 1 else (bitWidth n + 7) / 8

/-- Minimal octet count for the two's-complement representation of `v`
(spec §4.2 "minimal-octet representation"). -/
def signedMinOctets (v : Int) : Nat :=
  (bitWidth (if 0 ≤ v then v.toNat else (-v - 1).toNat) + 8) / 8

/-- Function `check_bounds` (`encode/mod.rs:291`): pure range check, touches no
buffer; first the lower bound, then the upper bound. -/
def check_bounds (value : Int) (lb ub : Option Int) (field : String) :
    Except AperCodecError Unit :=
  match lb with
  | some l =>
    if value < l then
      .error (AperCodecError.new
        (field ++ " " ++ toString value ++ " is less than lower bound " ++ toString l))
    else
      match ub with
      | some u =>
        if u < value then
          .error (AperCodecError.new
            (field ++ " " ++ toString value ++ " is greater than upper bound " ++ toString u))
        else .ok ()
      | none => .ok ()
  | none =>
    match ub with
    | some u =>
      if u < value then
        .error (AperCodecError.new
          (field ++ " " ++ toString value ++ " is greater than upper bound " ++ toString u))
      else .ok ()
    | none => .ok ()

/-- The semantic condition under which `check_bounds` rejects:
`value < lb` (when present) or `value > ub` (when present). -/
def boundsViolated (value : Int) (lb ub : Option Int) : Bool :=
  (match lb with | some l => decide (value < l) | none => false) ||
  (match ub with | some u => decide (u < value) | none => false)

/-- Modelled from the spec: `encode_indefinite_length_determinent` of
`encode_internal.rs`, not under the visible source.  Spec §4.3: the
indefinite-length form octet-aligns, then writes a minimal-octet count with a
leading form-selector — one octet `0xxxxxxx` for values `< 128`, two octets
`10xxxxxx xxxxxxxx` for values `< 16384`, and rejects the fragmented form for
values `≥ 16384` as unimplemented. -/
def encode_indefinite_length_determinent (data : AperCodecData) (value : Nat) :
    EncodeResult :=
  let d := data.align
  if value < 128 then
    (d.append_bits (natToBits 8 value), .ok ())
  else if value < 16384 then
    (d.append_bits ([true, false] ++ natToBits 14 value), .ok ())
  else
    (d, .error (AperCodecError.new
      "Encode of fragmented length determinent not yet implemented"))

/-- Modelled from the spec: `encode_normally_small_length_determinent` of
`encode_internal.rs`, not under the visible source.  Spec §4.3: the
`normally_small=true` form is "rejected in the encode path as unimplemented";
nothing is written. -/
def encode_normally_small_length_determinent (data : AperCodecData) (_value : Nat) :
    EncodeResult :=
  (data, .error (AperCodecError.new
    "Encode of normally small length determinent not yet implemented"))

/-- Modelled from the spec: `encode_constrained_whole_number` of
`encode_internal.rs`, not under the visible source.  Spec §4.2: the value is
re-based as `value - lb`; with `range = ub - lb`, a range fitting in one
octet or less is written in exactly `⌈log₂(range+1)⌉` bits with no padding;
a larger range aligns to an octet boundary and uses the minimal octet count
for the range.  It never fails. -/
def encode_constrained_whole_number (data : AperCodecData) (lb ub value : Int) :
    EncodeResult :=
  let range := ub - lb
  let v := (value - lb).toNat
  if range ≤ 255 then
    (data.append_bits (natToBits (bitWidth range.toNat) v), .ok ())
  else
    (data.align.append_bits (natToBits (8 * minOctets range.toNat) v), .ok ())

/-- Modelled from the spec: `encode_semi_constrained_whole_number` of
`encode_internal.rs`, not under the visible source.  Spec §4.2: the value is
re-based as `value - lb` (always ≥ 0) and written as a minimal-octet unsigned
integer preceded by its (indefinite) length determinant, the octets starting
octet-aligned. -/
def encode_semi_constrained_whole_number (data : AperCodecData) (lb value : Int) :
    EncodeResult :=
  let n := (value - lb).toNat
  let noct := minOctets n
  match encode_indefinite_length_determinent data noct with
  | (d, .error e) => (d, .error e)
  | (d, .ok _) => (d.align.append_bits (natToBits (8 * noct) n), .ok ())

/-- Modelled from the spec: `encode_unconstrained_whole_number` of
`encode_internal.rs`, not under the visible source.  Spec §4.2: two's
complement in the minimal octet count, preceded by its (indefinite) length
determinant. -/
def encode_unconstrained_whole_number (data : AperCodecData) (value : Int) :
    EncodeResult :=
  let noct := signedMinOctets value
  match encode_indefinite_length_determinent data noct with
  | (d, .error e) => (d, .error e)
  | (d, .ok _) =>
    (d.align.append_bits (natToBits (8 * noct) (value.emod (2 ^ (8 * noct))).toNat), .ok ())

/-- Function `encode_integer` (`encode/mod.rs:61`): bounds check, reject extended,
optional extension-marker bit, then dispatch on the bound shape. -/
def encode_integer (data : AperCodecData) (lb ub : Option Int)
    (is_extensible : Bool) (value : Int) (extended : Bool) : EncodeResult :=
  match check_bounds value lb ub "Integer" with
  | .error e => (data, .error e)
  | .ok _ =>
    if extended then
      (data, .error (AperCodecError.new "Encode of extended integer not yet implemented"))
    else
      let data := if is_extensible then data.encode_bool extended else data
      match lb, ub with
      | none, _ => encode_unconstrained_whole_number data value
      | some l, none => encode_semi_constrained_whole_number data l value
      | some l, some u => encode_constrained_whole_number data l u value

/-- Function `encode_choice_idx` (`encode/mod.rs:14`). -/
def encode_choice_idx (data : AperCodecData) (lb ub : Int) (is_extensible : Bool)
    (idx : Int) (extended : Bool) : EncodeResult :=
  match check_bounds idx (some lb) (some ub) "Choice index" with
  | .error e => (data, .error e)
  | .ok _ =>
    if extended then
      (data, .error (AperCodecError.new "Encode of extended choice not yet implemented"))
    else
      let data := if is_extensible then data.encode_bool extended else data
      encode_integer data (some lb) (some ub) false idx false

/-- Function `encode_sequence_header` (`encode/mod.rs:38`). -/
def encode_sequence_header (data : AperCodecData) (is_extensible : Bool)
    (optionals : List Bool) (extended : Bool) : EncodeResult :=
  if extended then
    (data, .error (AperCodecError.new "Encode of extended sequence not yet implemented"))
  else
    let data := if is_extensible then data.encode_bool extended else data
    (data.append_bits optionals, .ok ())

/-- Function `encode_bool` (`encode/mod.rs:92`). -/
def encode_bool (data : AperCodecData) (value : Bool) : EncodeResult :=
  (data.encode_bool value, .ok ())

/-- Function `encode_enumerated` (`encode/mod.rs:99`). -/
def encode_enumerated (data : AperCodecData) (lb ub : Option Int)
    (is_extensible : Bool) (value : Int) (extended : Bool) : EncodeResult :=
  match check_bounds value lb ub "Enum value" with
  | .error e => (data, .error e)
  | .ok _ =>
    if extended then
      (data, .error (AperCodecError.new "Encode of extended enumerated not yet implemented"))
    else
      let data := if is_extensible then data.encode_bool extended else data
      encode_integer data lb ub false value false

/-- Function `encode_length_determinent` (`encode/mod.rs:203`). -/
def encode_length_determinent (data : AperCodecData) (lb ub : Option Int)
    (normally_small : Bool) (value : Nat) : EncodeResult :=
  match check_bounds (value : Int) lb ub "Length determinent" with
  | .error e => (data, .error e)
  | .ok _ =>
    if normally_small then
      encode_normally_small_length_determinent data value
    else
      match ub with
      | some u =>
        if u < 65536 then
          encode_constrained_whole_number data ((lb).getD 0) u (value : Int)
        else encode_indefinite_length_determinent data value
      | none => encode_indefinite_length_determinent data value

/-- Function `encode_bitstring` (`encode/mod.rs:124`). -/
def encode_bitstring (data : AperCodecData) (lb ub : Option Int)
    (is_extensible : Bool) (bit_string : List Bool) (extended : Bool) : EncodeResult :=
  match check_bounds (bit_string.length : Int) lb ub "Bitstring length" with
  | .error e => (data, .error e)
  | .ok _ =>
    if extended then
      (data, .error (AperCodecError.new "Encode of extended bitstring not yet implemented"))
    else
      let data := if is_extensible then data.encode_bool extended else data
      let length := bit_string.length
      if 16384 ≤ length then
        (data, .error (AperCodecError.new
          "Encode of fragmented bitstring not yet implemented"))
      else
        match encode_length_determinent data lb ub false length with
        | (d, .error e) => (d, .error e)
        | (d, .ok _) =>
          if 0 < length then
            let d := if 16 < length then d.align else d
            (d.append_bits bit_string, .ok ())
          else (d, .ok ())

/-- Function `encode_octetstring` (`encode/mod.rs:163`); the octet string is the byte
list of the Rust `Vec<u8>`. -/
def encode_octetstring (data : AperCodecData) (lb ub : Option Int)
    (is_extensible : Bool) (octet_string : List Nat) (extended : Bool) : EncodeResult :=
  match check_bounds (octet_string.length : Int) lb ub "Octet string length" with
  | .error e => (data, .error e)
  | .ok _ =>
    if extended then
      (data, .error (AperCodecError.new "Encode of extended octetstring not yet implemented"))
    else
      let data := if is_extensible then data.encode_bool extended else data
      let length := octet_string.length
      if 16384 ≤ length then
        (data, .error (AperCodecError.new
          "Encode of fragmented octetstring not yet implemented"))
      else
        match encode_length_determinent data lb ub false length with
        | (d, .error e) => (d, .error e)
        | (d, .ok _) =>
          if 0 < length then
            let d := if 2 < length then d.align else d
            (d.append_bits (bytesToBits octet_string), .ok ())
          else (d, .ok ())

/-- The UTF-8 encoding of one character, as its byte values (what the bytes
of a Rust `String` are for that character). -/
def charUtf8Bytes (c : Char) : List Nat :=
  let n := c.toNat
  if n < 128 then [n]
  else if n < 2048 then
    [192 + n / 64, 128 + n % 64]
  else if n < 65536 then
    [224 + n / 4096, 128 + n / 64 % 64, 128 + n % 64]
  else
    [240 + n / 262144, 128 + n / 4096 % 64, 128 + n / 64 % 64, 128 + n % 64]

/-- UTF-8 byte sequence of a character list. -/
def stringUtf8Bytes : List Char → List Nat
  | [] => []
  | c :: cs => charUtf8Bytes c ++ stringUtf8Bytes cs

/-- A Rust `String`: a sequence of characters stored as its UTF-8 bytes. -/
structure RustString where
  chars : List Char
deriving Repr, DecidableEq

/-- Rust `String::len()`: the number of BYTES of the UTF-8 encoding. -/
def RustString.len (s : RustString) : Nat := (stringUtf8Bytes s.chars).length

/-- The number of characters of the string (NOT what Rust `String::len()`
returns; stated here to compare against the byte count). -/
def RustString.charCount (s : RustString) : Nat := s.chars.length

/-- Rust `value.as_bits()`: the string's UTF-8 bytes viewed as bits,
MSB-first per octet. -/
def RustString.as_bits (s : RustString) : List Bool :=
  bytesToBits (stringUtf8Bytes s.chars)

/-- Function `encode_string` (`encode/mod.rs:225`), the shared routine of the three
character-string encoders; `value.len()` is the Rust byte length. -/
def encode_string (data : AperCodecData) (lb ub : Option Int)
    (is_extensible : Bool) (value : RustString) (extended : Bool) : EncodeResult :=
  match check_bounds (value.len : Int) lb ub "String length" with
  | .error e => (data, .error e)
  | .ok _ =>
    if extended then
      (data, .error (AperCodecError.new
        "Encode of extended visible string not yet implemented"))
    else
      let data := if is_extensible then data.encode_bool extended else data
      match encode_length_determinent data lb ub false value.len with
      | (d, .error e) => (d, .error e)
      | (d, .ok _) =>
        let d := if 2 < value.len then d.align else d
        (d.append_bits value.as_bits, .ok ())

/-- Function `encode_visible_string` (`encode/mod.rs:253`). -/
def encode_visible_string (data : AperCodecData) (lb ub : Option Int)
    (is_extensible : Bool) (value : RustString) (extended : Bool) : EncodeResult :=
  encode_string data lb ub is_extensible value extended

/-- Function `encode_printable_string` (`encode/mod.rs:266`). -/
def encode_printable_string (data : AperCodecData) (lb ub : Option Int)
    (is_extensible : Bool) (value : RustString) (extended : Bool) : EncodeResult :=
  encode_string data lb ub is_extensible value extended

/-- Function `encode_utf8_string` (`encode/mod.rs:279`). -/
def encode_utf8_string (data : AperCodecData) (lb ub : Option Int)
    (is_extensible : Bool) (value : RustString) (extended : Bool) : EncodeResult :=
  encode_string data lb ub is_extensible value extended


/-! ## Helper lemmas -/

theorem isOk_check_bounds (v : Int) (lb ub : Option Int) (f : String) :
    isOk (check_bounds v lb ub f) = !boundsViolated v lb ub := by
  unfold check_bounds boundsViolated
  rcases lb with _ | l <;> rcases ub with _ | u <;>
    (repeat' split) <;> simp_all [isOk]

theorem check_bounds_error_of_violated {v : Int} {lb ub : Option Int} (f : String)
    (h : boundsViolated v lb ub = true) :
    ∃ e, check_bounds v lb ub f = Except.error e := by
  have hok := isOk_check_bounds v lb ub f
  rw [h] at hok
  rcases hcb : check_bounds v lb ub f with e | u
  · exact ⟨e, rfl⟩
  · rw [hcb] at hok; simp [isOk] at hok

theorem check_bounds_ok_of_not_violated {v : Int} {lb ub : Option Int} (f : String)
    (h : boundsViolated v lb ub = false) :
    check_bounds v lb ub f = Except.ok () := by
  have hok := isOk_check_bounds v lb ub f
  rw [h] at hok
  rcases hcb : check_bounds v lb ub f with e | u
  · rw [hcb] at hok; simp [isOk] at hok
  · cases u; rfl


theorem bitWidth_le {n k : Nat} (h : n < 2 ^ k) : bitWidth n ≤ k := by
  unfold bitWidth
  split
  · omega
  · rename_i hn
    have := (Nat.log2_lt hn).2 h
    omega

theorem minOctets_lt {n : Nat} (h : n < 2 ^ 128) : minOctets n < 128 := by
  unfold minOctets
  have := bitWidth_le h
  split <;> omega

theorem signedMinOctets_lt {v : Int} (h1 : -(2 ^ 127) ≤ v) (h2 : v < 2 ^ 127) :
    signedMinOctets v < 128 := by
  unfold signedMinOctets
  have hc : ((2 ^ 127 : Nat) : Int) = 2 ^ 127 := by norm_cast
  have hm : (if 0 ≤ v then v.toNat else (-v - 1).toNat) < 2 ^ 127 := by
    split <;> omega
  have := bitWidth_le hm
  omega

theorem indefinite_snd_ok {n : Nat} (d : AperCodecData) (h : n < 16384) :
    (encode_indefinite_length_determinent d n).2 = Except.ok () := by
  unfold encode_indefinite_length_determinent
  dsimp only
  by_cases h1 : n < 128
  · rw [if_pos h1]
  · rw [if_neg h1, if_pos (show n < 16384 from h)]

theorem constrained_snd_ok (d : AperCodecData) (lb ub v : Int) :
    (encode_constrained_whole_number d lb ub v).2 = Except.ok () := by
  unfold encode_constrained_whole_number
  dsimp only
  split <;> rfl

theorem align_length_mod (d : AperCodecData) : d.align.bits.length % 8 = 0 := by
  unfold AperCodecData.align
  simp [List.length_append, List.length_replicate]
  omega


theorem length_det_snd_ok (d : AperCodecData) (lb ub : Option Int) (n : Nat)
    (h1 : boundsViolated (n : Int) lb ub = false) (h2 : n < 16384) :
    (encode_length_determinent d lb ub false n).2 = Except.ok () := by
  unfold encode_length_determinent
  rw [check_bounds_ok_of_not_violated _ h1]
  simp only [Bool.false_eq_true, if_false]
  rcases ub with _ | u
  · exact indefinite_snd_ok _ h2
  · dsimp only
    split
    · exact constrained_snd_ok _ _ _ _
    · exact indefinite_snd_ok _ h2

/-- C5: the three character-string encoders (`encode_visible_string`,
`encode_printable_string`, `encode_utf8_string`) are extensionally equal —
for every combination of buffer, bounds, extensibility flags and string
value they return the same result and the same final buffer. -/
theorem character_string_encoders_agree :
    ∀ (data : AperCodecData) (lb ub : Option Int) (is_extensible : Bool)
      (value : RustString) (extended : Bool),
      encode_visible_string data lb ub is_extensible value extended =
        encode_printable_string data lb ub is_extensible value extended ∧
      encode_printable_string data lb ub is_extensible value extended =
        encode_utf8_string data lb ub is_extensible value extended :=
  fun _ _ _ _ _ _ => ⟨rfl, rfl⟩

/-- C10: `encode_sequence_header` fails exactly when `extended = true`
(no validation of the bitmap itself); on that error the buffer is unchanged,
and on success the buffer grows by exactly one extension-marker bit (when
`is_extensible`) followed by the `optionals` bitmap verbatim. -/
theorem encode_sequence_header_spec (data : AperCodecData) (is_extensible : Bool)
    (optionals : List Bool) (extended : Bool) :
    (isOk (encode_sequence_header data is_extensible optionals extended).2 = false ↔
      extended = true) ∧
    encode_sequence_header data is_extensible optionals extended =
      if extended then
        (data, Except.error (AperCodecError.new
          "Encode of extended sequence not yet implemented"))
      else
        (⟨data.bits ++ (if is_extensible then [false] else []) ++ optionals⟩,
          Except.ok ()) := by
  unfold encode_sequence_header
  cases extended <;> cases is_extensible <;>
    simp [isOk, AperCodecData.encode_bool, AperCodecData.append_bits]

/-- C8: for every length value within `[lb, ub]`,
`encode_length_determinent` with `normally_small = true` returns the
"not yet implemented" error of the normally-small form and writes no
bits (the buffer is returned unchanged). -/
theorem normally_small_length_unimplemented (data : AperCodecData)
    (lb ub : Option Int) (value : Nat)
    (h : boundsViolated (value : Int) lb ub = false) :
    encode_length_determinent data lb ub true value =
      (data, Except.error (AperCodecError.new
        "Encode of normally small length determinent not yet implemented")) := by
  unfold encode_length_determinent
  rw [check_bounds_ok_of_not_violated _ h]
  rfl

/-- Witness for C8 at `lb = 0`, `ub = 10`, `value = 5`. -/
theorem normally_small_length_unimplemented_witness :
    encode_length_determinent ⟨[]⟩ (some 0) (some 10) true 5 =
      (⟨[]⟩, Except.error (AperCodecError.new
        "Encode of normally small length determinent not yet implemented")) :=
  normally_small_length_unimplemented ⟨[]⟩ (some 0) (some 10) 5 (by decide)

/-- C4: for every in-range choice index with `extended = false`,
`encode_choice_idx` appends exactly one extension-marker bit of value `0`
when `is_extensible` (and nothing when not), and from then on behaves
exactly as `encode_integer` for `idx` under the fully-constrained bound
`(some lb, some ub)`: result and final buffer coincide. -/
theorem encode_choice_idx_marker_then_integer (data : AperCodecData)
    (lb ub : Int) (is_extensible : Bool) (idx : Int)
    (h1 : lb ≤ idx) (h2 : idx ≤ ub) :
    encode_choice_idx data lb ub is_extensible idx false =
      encode_integer ⟨data.bits ++ (if is_extensible then [false] else [])⟩
        (some lb) (some ub) false idx false := by
  unfold encode_choice_idx
  have hbv : boundsViolated idx (some lb) (some ub) = false := by
    simp [boundsViolated]; omega
  rw [check_bounds_ok_of_not_violated _ hbv]
  cases is_extensible <;> simp [AperCodecData.encode_bool]

/-- Witness for C4 at `lb = 0`, `ub = 7`, `idx = 3`, `is_extensible = true`,
on a buffer already holding one bit. -/
theorem encode_choice_idx_marker_then_integer_witness :
    encode_choice_idx ⟨[true]⟩ 0 7 true 3 false =
      encode_integer ⟨[true] ++ (if true then [false] else [])⟩
        (some 0) (some 7) false 3 false :=
  encode_choice_idx_marker_then_integer ⟨[true]⟩ 0 7 true 3 (by omega) (by omega)


/-- C7: for every bounds-taking encode operation (integer, enumerated,
choice index, bit string, octet string, character string, length
determinant), a bounds-violation rejection happens before any bits —
including any extension-marker bit — are written: the returned buffer is
the input buffer and the result is an error. -/
theorem bounds_violation_buffer_unchanged (data : AperCodecData)
    (lb ub : Option Int) (is_extensible extended normally_small : Bool)
    (v ev idx l u : Int) (bs : List Bool) (os : List Nat) (s : RustString) (n : Nat)
    (hv : boundsViolated v lb ub = true)
    (hev : boundsViolated ev lb ub = true)
    (hidx : boundsViolated idx (some l) (some u) = true)
    (hbs : boundsViolated (bs.length : Int) lb ub = true)
    (hos : boundsViolated (os.length : Int) lb ub = true)
    (hs : boundsViolated (s.len : Int) lb ub = true)
    (hn : boundsViolated (n : Int) lb ub = true) :
    ((encode_integer data lb ub is_extensible v extended).1 = data ∧
      isOk (encode_integer data lb ub is_extensible v extended).2 = false) ∧
    ((encode_enumerated data lb ub is_extensible ev extended).1 = data ∧
      isOk (encode_enumerated data lb ub is_extensible ev extended).2 = false) ∧
    ((encode_choice_idx data l u is_extensible idx extended).1 = data ∧
      isOk (encode_choice_idx data l u is_extensible idx extended).2 = false) ∧
    ((encode_bitstring data lb ub is_extensible bs extended).1 = data ∧
      isOk (encode_bitstring data lb ub is_extensible bs extended).2 = false) ∧
    ((encode_octetstring data lb ub is_extensible os extended).1 = data ∧
      isOk (encode_octetstring data lb ub is_extensible os extended).2 = false) ∧
    ((encode_visible_string data lb ub is_extensible s extended).1 = data ∧
      isOk (encode_visible_string data lb ub is_extensible s extended).2 = false) ∧
    ((encode_length_determinent data lb ub normally_small n).1 = data ∧
      isOk (encode_length_determinent data lb ub normally_small n).2 = false) := by
  obtain ⟨e1, he1⟩ := check_bounds_error_of_violated "Integer" hv
  obtain ⟨e2, he2⟩ := check_bounds_error_of_violated "Enum value" hev
  obtain ⟨e3, he3⟩ := check_bounds_error_of_violated "Choice index" hidx
  obtain ⟨e4, he4⟩ := check_bounds_error_of_violated "Bitstring length" hbs
  obtain ⟨e5, he5⟩ := check_bounds_error_of_violated "Octet string length" hos
  obtain ⟨e6, he6⟩ := check_bounds_error_of_violated "String length" hs
  obtain ⟨e7, he7⟩ := check_bounds_error_of_violated "Length determinent" hn
  unfold encode_integer encode_enumerated encode_choice_idx encode_bitstring
    encode_octetstring encode_visible_string encode_string encode_length_determinent
  rw [he1, he2, he3, he4, he5, he6, he7]
  simp [isOk]

/-- Witness for C7: every operation rejects its out-of-range value
(`0 < lb = 1`) on a one-bit buffer with both flags set, leaving the
buffer untouched. -/
theorem bounds_violation_buffer_unchanged_witness :
    ((encode_integer ⟨[true]⟩ (some 1) (some 1) true 0 true).1 = ⟨[true]⟩ ∧
      isOk (encode_integer ⟨[true]⟩ (some 1) (some 1) true 0 true).2 = false) ∧
    ((encode_enumerated ⟨[true]⟩ (some 1) (some 1) true 0 true).1 = ⟨[true]⟩ ∧
      isOk (encode_enumerated ⟨[true]⟩ (some 1) (some 1) true 0 true).2 = false) ∧
    ((encode_choice_idx ⟨[true]⟩ 1 1 true 0 true).1 = ⟨[true]⟩ ∧
      isOk (encode_choice_idx ⟨[true]⟩ 1 1 true 0 true).2 = false) ∧
    ((encode_bitstring ⟨[true]⟩ (some 1) (some 1) true [] true).1 = ⟨[true]⟩ ∧
      isOk (encode_bitstring ⟨[true]⟩ (some 1) (some 1) true [] true).2 = false) ∧
    ((encode_octetstring ⟨[true]⟩ (some 1) (some 1) true [] true).1 = ⟨[true]⟩ ∧
      isOk (encode_octetstring ⟨[true]⟩ (some 1) (some 1) true [] true).2 = false) ∧
    ((encode_visible_string ⟨[true]⟩ (some 1) (some 1) true ⟨[]⟩ true).1 = ⟨[true]⟩ ∧
      isOk (encode_visible_string ⟨[true]⟩ (some 1) (some 1) true ⟨[]⟩ true).2 = false) ∧
    ((encode_length_determinent ⟨[true]⟩ (some 1) (some 1) true 0).1 = ⟨[true]⟩ ∧
      isOk (encode_length_determinent ⟨[true]⟩ (some 1) (some 1) true 0).2 = false) :=
  bounds_violation_buffer_unchanged ⟨[true]⟩ (some 1) (some 1) true true true
    0 0 0 1 1 [] [] ⟨[]⟩ 0
    (by decide) (by decide) (by decide) (by decide) (by decide) (by decide) (by decide)


/-- C9: when a bit/octet string's length is within `[lb, ub]` but at least
16384, the fragmentation-unimplemented error is raised only after the
extension-marker bit was appended: with `is_extensible = true` the buffer
grows by exactly the one `0` marker bit on this failure, and with
`is_extensible = false` the buffer is unchanged. -/
theorem fragmentation_error_after_marker (data : AperCodecData)
    (lb ub : Option Int) (bs : List Bool) (os : List Nat)
    (hbs : boundsViolated (bs.length : Int) lb ub = false)
    (hbs16 : 16384 ≤ bs.length)
    (hos : boundsViolated (os.length : Int) lb ub = false)
    (hos16 : 16384 ≤ os.length) :
    ((encode_bitstring data lb ub true bs false).1.bits = data.bits ++ [false] ∧
      isOk (encode_bitstring data lb ub true bs false).2 = false) ∧
    ((encode_bitstring data lb ub false bs false).1 = data ∧
      isOk (encode_bitstring data lb ub false bs false).2 = false) ∧
    ((encode_octetstring data lb ub true os false).1.bits = data.bits ++ [false] ∧
      isOk (encode_octetstring data lb ub true os false).2 = false) ∧
    ((encode_octetstring data lb ub false os false).1 = data ∧
      isOk (encode_octetstring data lb ub false os false).2 = false) := by
  unfold encode_bitstring encode_octetstring
  rw [check_bounds_ok_of_not_violated "Bitstring length" hbs,
    check_bounds_ok_of_not_violated "Octet string length" hos]
  simp [isOk, AperCodecData.encode_bool, hbs16, hos16,
    Nat.not_lt.2 hbs16, Nat.not_lt.2 hos16]

/-- Witness for C9 on strings of length exactly 16384 with no declared
bounds, starting from the empty buffer. -/
theorem fragmentation_error_after_marker_witness :
    ((encode_bitstring ⟨[]⟩ none none true (List.replicate 16384 false) false).1.bits =
        (⟨[]⟩ : AperCodecData).bits ++ [false] ∧
      isOk (encode_bitstring ⟨[]⟩ none none true (List.replicate 16384 false) false).2 = false) ∧
    ((encode_bitstring ⟨[]⟩ none none false (List.replicate 16384 false) false).1 = ⟨[]⟩ ∧
      isOk (encode_bitstring ⟨[]⟩ none none false (List.replicate 16384 false) false).2 = false) ∧
    ((encode_octetstring ⟨[]⟩ none none true (List.replicate 16384 0) false).1.bits =
        (⟨[]⟩ : AperCodecData).bits ++ [false] ∧
      isOk (encode_octetstring ⟨[]⟩ none none true (List.replicate 16384 0) false).2 = false) ∧
    ((encode_octetstring ⟨[]⟩ none none false (List.replicate 16384 0) false).1 = ⟨[]⟩ ∧
      isOk (encode_octetstring ⟨[]⟩ none none false (List.replicate 16384 0) false).2 = false) :=
  fragmentation_error_after_marker ⟨[]⟩ none none
    (List.replicate 16384 false) (List.replicate 16384 0)
    (by simp [boundsViolated]) (by rw [List.length_replicate])
    (by simp [boundsViolated]) (by rw [List.length_replicate])


theorem encode_bitstring_isOk_iff (data : AperCodecData) (lb ub : Option Int)
    (is_extensible : Bool) (bs : List Bool) :
    isOk (encode_bitstring data lb ub is_extensible bs false).2 = false ↔
      (boundsViolated (bs.length : Int) lb ub = true ∨ 16384 ≤ bs.length) := by
  unfold encode_bitstring
  by_cases hbv : boundsViolated (bs.length : Int) lb ub = true
  · obtain ⟨e, he⟩ := check_bounds_error_of_violated "Bitstring length" hbv
    rw [he]
    simp [isOk, hbv]
  · have hnv : boundsViolated (bs.length : Int) lb ub = false := by
      simpa using hbv
    rw [check_bounds_ok_of_not_violated "Bitstring length" hnv]
    dsimp only
    by_cases h16 : 16384 ≤ bs.length
    · rw [if_pos h16]
      simp [isOk, h16]
    · rw [if_neg h16]
      rcases hld : encode_length_determinent
          (if is_extensible then data.encode_bool false else data) lb ub false
          bs.length with ⟨d2, r2⟩
      have h2 := length_det_snd_ok
        (if is_extensible then data.encode_bool false else data) lb ub bs.length hnv
        (by omega)
      rw [hld] at h2
      simp only at h2
      subst h2
      simp only [Bool.false_eq_true, if_false]
      split <;> simp [isOk, hnv, h16]


theorem encode_octetstring_isOk_iff (data : AperCodecData) (lb ub : Option Int)
    (is_extensible : Bool) (os : List Nat) :
    isOk (encode_octetstring data lb ub is_extensible os false).2 = false ↔
      (boundsViolated (os.length : Int) lb ub = true ∨ 16384 ≤ os.length) := by
  unfold encode_octetstring
  by_cases hbv : boundsViolated (os.length : Int) lb ub = true
  · obtain ⟨e, he⟩ := check_bounds_error_of_violated "Octet string length" hbv
    rw [he]
    simp [isOk, hbv]
  · have hnv : boundsViolated (os.length : Int) lb ub = false := by
      simpa using hbv
    rw [check_bounds_ok_of_not_violated "Octet string length" hnv]
    dsimp only
    by_cases h16 : 16384 ≤ os.length
    · rw [if_pos h16]
      simp [isOk, h16]
    · rw [if_neg h16]
      rcases hld : encode_length_determinent
          (if is_extensible then data.encode_bool false else data) lb ub false
          os.length with ⟨d2, r2⟩
      have h2 := length_det_snd_ok
        (if is_extensible then data.encode_bool false else data) lb ub os.length hnv
        (by omega)
      rw [hld] at h2
      simp only at h2
      subst h2
      simp only [Bool.false_eq_true, if_false]
      split <;> simp [isOk, hnv, h16]

/-- C2: with `extended = false`, `encode_bitstring` (length counted in
bits) and `encode_octetstring` (length counted in octets) fail exactly when
the length violates `[lb, ub]` or reaches 16384; for every length within
bounds and below 16384 they succeed. -/
theorem encode_bit_octet_string_fails_iff (data : AperCodecData)
    (lb ub : Option Int) (is_extensible : Bool) (bs : List Bool) (os : List Nat) :
    (isOk (encode_bitstring data lb ub is_extensible bs false).2 = false ↔
      (boundsViolated (bs.length : Int) lb ub = true ∨ 16384 ≤ bs.length)) ∧
    (isOk (encode_octetstring data lb ub is_extensible os false).2 = false ↔
      (boundsViolated (os.length : Int) lb ub = true ∨ 16384 ≤ os.length)) :=
  ⟨encode_bitstring_isOk_iff data lb ub is_extensible bs,
    encode_octetstring_isOk_iff data lb ub is_extensible os⟩


/-- C3: on every successful encode of a bit string longer than 16 bits or
an octet string longer than 2 octets, the content bits start on an octet
boundary: the final buffer is some prefix whose bit-length is a multiple
of 8 followed by exactly the content bits, whatever the buffer's alignment
on entry. -/
theorem string_content_octet_aligned (data : AperCodecData)
    (lb ub : Option Int) (is_extensible : Bool) (bs : List Bool) (os : List Nat)
    (hbsok : isOk (encode_bitstring data lb ub is_extensible bs false).2 = true)
    (hbs16 : 16 < bs.length)
    (hosok : isOk (encode_octetstring data lb ub is_extensible os false).2 = true)
    (hos2 : 2 < os.length) :
    (∃ pre, (encode_bitstring data lb ub is_extensible bs false).1.bits = pre ++ bs ∧
      pre.length % 8 = 0) ∧
    (∃ pre, (encode_octetstring data lb ub is_extensible os false).1.bits =
      pre ++ bytesToBits os ∧ pre.length % 8 = 0) := by
  constructor
  · have hiff := encode_bitstring_isOk_iff data lb ub is_extensible bs
    have hno : ¬(boundsViolated (bs.length : Int) lb ub = true ∨ 16384 ≤ bs.length) := by
      intro hc
      rw [hiff.2 hc] at hbsok
      cases hbsok
    have hnv : boundsViolated (bs.length : Int) lb ub = false := by
      rcases hb : boundsViolated (bs.length : Int) lb ub
      · rfl
      · exact absurd (Or.inl hb) hno
    have h16 : ¬16384 ≤ bs.length := fun hc => hno (Or.inr hc)
    unfold encode_bitstring
    rw [check_bounds_ok_of_not_violated "Bitstring length" hnv]
    dsimp only
    rw [if_neg h16]
    rcases hld : encode_length_determinent
        (if is_extensible then data.encode_bool false else data) lb ub false
        bs.length with ⟨d2, r2⟩
    have h2 := length_det_snd_ok
      (if is_extensible then data.encode_bool false else data) lb ub bs.length hnv
      (by omega)
    rw [hld] at h2
    simp only at h2
    subst h2
    simp only [Bool.false_eq_true, if_false]
    rw [if_pos (by omega : 0 < bs.length), if_pos hbs16]
    exact ⟨d2.align.bits, by simp [AperCodecData.append_bits], align_length_mod d2⟩
  · have hiff := encode_octetstring_isOk_iff data lb ub is_extensible os
    have hno : ¬(boundsViolated (os.length : Int) lb ub = true ∨ 16384 ≤ os.length) := by
      intro hc
      rw [hiff.2 hc] at hosok
      cases hosok
    have hnv : boundsViolated (os.length : Int) lb ub = false := by
      rcases hb : boundsViolated (os.length : Int) lb ub
      · rfl
      · exact absurd (Or.inl hb) hno
    have h16 : ¬16384 ≤ os.length := fun hc => hno (Or.inr hc)
    unfold encode_octetstring
    rw [check_bounds_ok_of_not_violated "Octet string length" hnv]
    dsimp only
    rw [if_neg h16]
    rcases hld : encode_length_determinent
        (if is_extensible then data.encode_bool false else data) lb ub false
        os.length with ⟨d2, r2⟩
    have h2 := length_det_snd_ok
      (if is_extensible then data.encode_bool false else data) lb ub os.length hnv
      (by omega)
    rw [hld] at h2
    simp only at h2
    subst h2
    simp only [Bool.false_eq_true, if_false]
    rw [if_pos (by omega : 0 < os.length), if_pos hos2]
    exact ⟨d2.align.bits, by simp [AperCodecData.append_bits], align_length_mod d2⟩

/-- Witness for C3: a 17-bit bit string and a 3-octet octet string, encoded
unconstrained onto a deliberately misaligned (one-bit) buffer. -/
theorem string_content_octet_aligned_witness :
    (∃ pre, (encode_bitstring ⟨[true]⟩ none none false (List.replicate 17 true) false).1.bits =
      pre ++ List.replicate 17 true ∧ pre.length % 8 = 0) ∧
    (∃ pre, (encode_octetstring ⟨[true]⟩ none none false [1, 2, 3] false).1.bits =
      pre ++ bytesToBits [1, 2, 3] ∧ pre.length % 8 = 0) :=
  string_content_octet_aligned ⟨[true]⟩ none none false (List.replicate 17 true) [1, 2, 3]
    (by decide) (by decide) (by decide) (by decide)


theorem semi_snd_ok (d : AperCodecData) (l v : Int)
    (h : (v - l).toNat < 2 ^ 128) :
    (encode_semi_constrained_whole_number d l v).2 = Except.ok () := by
  unfold encode_semi_constrained_whole_number
  dsimp only
  rcases hld : encode_indefinite_length_determinent d (minOctets (v - l).toNat)
    with ⟨d2, r2⟩
  have h2 := indefinite_snd_ok d (show minOctets (v - l).toNat < 16384 by
    have := minOctets_lt h; omega)
  rw [hld] at h2
  simp only at h2
  subst h2
  rfl

theorem unconstrained_snd_ok (d : AperCodecData) (v : Int)
    (h1 : -(2 ^ 127) ≤ v) (h2 : v < 2 ^ 127) :
    (encode_unconstrained_whole_number d v).2 = Except.ok () := by
  unfold encode_unconstrained_whole_number
  dsimp only
  rcases hld : encode_indefinite_length_determinent d (signedMinOctets v)
    with ⟨d2, r2⟩
  have hh := indefinite_snd_ok d (show signedMinOctets v < 16384 by
    have := signedMinOctets_lt h1 h2; omega)
  rw [hld] at hh
  simp only at hh
  subst hh
  rfl

theorem boundsViolated_iff (v : Int) (lb ub : Option Int) :
    boundsViolated v lb ub = true ↔
      ((∃ l, lb = some l ∧ v < l) ∨ (∃ u, ub = some u ∧ u < v)) := by
  rcases lb with _ | l <;> rcases ub with _ | u <;> simp [boundsViolated]

/-- C1: with `extended = false` and values/bounds in the `i128` range of the
source, `encode_integer` fails exactly when `v < lb` (when `lb` is present)
or `v > ub` (when `ub` is present); it succeeds for every `v` within
`[lb, ub]`. -/
theorem encode_integer_fails_iff (data : AperCodecData) (lb ub : Option Int)
    (is_extensible : Bool) (v : Int)
    (hv1 : -(2 ^ 127) ≤ v) (hv2 : v < 2 ^ 127)
    (hlb : ∀ l, lb = some l → -(2 ^ 127) ≤ l) :
    isOk (encode_integer data lb ub is_extensible v false).2 = false ↔
      ((∃ l, lb = some l ∧ v < l) ∨ (∃ u, ub = some u ∧ u < v)) := by
  rw [← boundsViolated_iff]
  by_cases hbv : boundsViolated v lb ub = true
  · obtain ⟨e, he⟩ := check_bounds_error_of_violated "Integer" hbv
    unfold encode_integer
    rw [he]
    simp [isOk, hbv]
  · have hnv : boundsViolated v lb ub = false := by simpa using hbv
    unfold encode_integer
    rw [check_bounds_ok_of_not_violated "Integer" hnv]
    simp only [Bool.false_eq_true, if_false]
    rcases lb with _ | l
    · rw [unconstrained_snd_ok _ v hv1 hv2]
      simp [isOk, hnv]
    · rcases ub with _ | u
      · have hl := hlb l rfl
        have hlv : l ≤ v := by
          simp [boundsViolated] at hnv
          omega
        have hsub : (v - l).toNat < 2 ^ 128 := by
          have e1 : (2 : Int) ^ 127 = 170141183460469231731687303715884105728 := by
            norm_num
          have e2 : (2 ^ 128 : Nat) = 340282366920938463463374607431768211456 := by
            norm_num
          rw [e1] at hv2 hl
          rw [e2]
          omega
        rw [semi_snd_ok _ l v hsub]
        simp [isOk, hnv]
      · rw [constrained_snd_ok _ l u v]
        simp [isOk, hnv]

/-- Witness for C1 at `lb = 0`, `ub = 7`: the in-range value `3` encodes
successfully and the out-of-range characterization holds. -/
theorem encode_integer_fails_iff_witness :
    (isOk (encode_integer ⟨[]⟩ (some 0) (some 7) false 3 false).2 = false ↔
      ((∃ l, (some (0 : Int)) = some l ∧ (3 : Int) < l) ∨
        (∃ u, (some (7 : Int)) = some u ∧ u < (3 : Int)))) :=
  encode_integer_fails_iff ⟨[]⟩ (some 0) (some 7) false 3
    (by norm_num) (by norm_num)
    (by intro l hl; injection hl with hl; subst hl; norm_num)


/-- The one-character string `"é"` (U+00E9): one character, two UTF-8
bytes — the Rust `String::len()` of it is 2 while its character count
is 1. -/
def eAcuteString : RustString := ⟨[Char.ofNat 233]⟩

/-- C6 counterexample: for the one-character string `"é"` under the bound
`[_, 1]`, the character count (1) is within bounds, yet `encode_utf8_string`
rejects the string with the bounds-violation error naming length 2 — the
quantity validated is the byte count of the UTF-8 encoding, not the
character count. -/
theorem string_bounds_charcount_cex :
    eAcuteString.charCount = 1 ∧
    boundsViolated (eAcuteString.charCount : Int) none (some 1) = false ∧
    isOk (encode_utf8_string ⟨[]⟩ none (some 1) false eAcuteString false).2 = false ∧
    (encode_utf8_string ⟨[]⟩ none (some 1) false eAcuteString false).1 = ⟨[]⟩ ∧
    errMsg (encode_utf8_string ⟨[]⟩ none (some 1) false eAcuteString false).2 =
      "String length 2 is greater than upper bound 1" := by
  decide

/-- C6 as amended: the length that `encode_string` (shared by the visible,
printable and UTF8 encoders) validates against `[lb, ub]` is the string's
byte count (the length of its UTF-8 encoding): the encode fails on a
bounds violation — returning the `check_bounds` error with the buffer
unchanged — exactly when the byte count lies outside `[lb, ub]`. -/
theorem string_bounds_byte_count (data : AperCodecData) (lb ub : Option Int)
    (is_extensible : Bool) (s : RustString) :
    boundsViolated (s.len : Int) lb ub = true ↔
      ∃ e, check_bounds (s.len : Int) lb ub "String length" = Except.error e ∧
        encode_string data lb ub is_extensible s false = (data, Except.error e) := by
  constructor
  · intro hbv
    obtain ⟨e, he⟩ := check_bounds_error_of_violated "String length" hbv
    refine ⟨e, he, ?_⟩
    unfold encode_string
    rw [he]
  · rintro ⟨e, he, -⟩
    have hok := isOk_check_bounds (s.len : Int) lb ub "String length"
    rw [he] at hok
    rcases hb : boundsViolated (s.len : Int) lb ub
    · rw [hb] at hok
      simp [isOk] at hok
    · rfl
